import Mathlib

set_option maxHeartbeats 1000000

/-!
Verification of the authorization and voting core of the comment/moderation
backend (Supabase edge functions).  The development shallowly embeds the
relevant request handlers: the vote state machine of
supabase/functions/votes/index.ts, the role hierarchy of
supabase/functions/shared/config.ts, the moderation handler handleBanUser,
the restriction gate of supabase/functions/comments/index.ts and the report
creation gate, and the JWT codec (generateJWT / verifyJWT).

JavaScript strings are modelled as lists of characters; JavaScript objects
used as string-keyed maps are modelled as association lists.  Database reads
are modelled as explicit lookup functions passed to the handler; the
HMAC-SHA256 primitive of the Web Crypto API is an external collaborator and
is modelled as an arbitrary deterministic function parameter.
-/

/-- JavaScript string, modelled as its list of characters. -/
abbrev JStr := List Char

/-- Vote direction stored in a comment's user_votes map
('upvote' / 'downvote' in the source). -/
inductive VoteDir where
  | up
  | down
deriving DecidableEq, Repr

/-- Requested vote kind ('upvote' / 'downvote' / 'remove'). -/
inductive VoteKind where
  | upvote
  | downvote
  | remove
deriving DecidableEq, Repr

/-- The per-comment vote ledger: the parsed user_votes JSON object,
a map from voter id to vote direction. -/
abbrev UserVotes := List (JStr × VoteDir)

/-- Lookup of userVotes[userId] (first matching key). -/
def vlookup (m : UserVotes) (u : JStr) : Option VoteDir :=
  match m with
  | [] => none
  | (k, d) :: rest => if k = u then some d else vlookup rest u

/-- The JavaScript statement delete userVotes[userId]. -/
def vdelete (m : UserVotes) (u : JStr) : UserVotes :=
  match m with
  | [] => []
  | p :: rest => if p.1 = u then vdelete rest u else p :: vdelete rest u

/-- The JavaScript assignment userVotes[userId] = d. -/
def vset (m : UserVotes) (u : JStr) (d : VoteDir) : UserVotes :=
  vdelete m u ++ [(u, d)]

/-- The mutable state read from and written back to the comments row:
user_votes map plus the upvotes / downvotes aggregate counters. -/
structure VoteState where
  votes : UserVotes
  upvotes : Int
  downvotes : Int
deriving DecidableEq, Repr

/-- Result of the vote_type switch: the updated state plus newVoteType. -/
structure VoteOutcome where
  state : VoteState
  newVoteType : Option VoteDir
deriving DecidableEq, Repr

/-- The vote_type switch of supabase/functions/votes/index.ts (lines 86-144),
embedded branch for branch: toggle-off on a repeated vote, direction switch,
fresh vote, and unconditional removal. -/
def applyVote (s : VoteState) (userId : JStr) (k : VoteKind) : VoteOutcome :=
  match k with
  | .upvote =>
    if vlookup s.votes userId = some .up then
      ⟨⟨vdelete s.votes userId, s.upvotes - 1, s.downvotes⟩, none⟩
    else if vlookup s.votes userId = some .down then
      ⟨⟨vset s.votes userId .up, s.upvotes + 1, s.downvotes - 1⟩, some .up⟩
    else
      ⟨⟨vset s.votes userId .up, s.upvotes + 1, s.downvotes⟩, some .up⟩
  | .downvote =>
    if vlookup s.votes userId = some .down then
      ⟨⟨vdelete s.votes userId, s.upvotes, s.downvotes - 1⟩, none⟩
    else if vlookup s.votes userId = some .up then
      ⟨⟨vset s.votes userId .down, s.upvotes - 1, s.downvotes + 1⟩, some .down⟩
    else
      ⟨⟨vset s.votes userId .down, s.upvotes, s.downvotes + 1⟩, some .down⟩
  | .remove =>
    if vlookup s.votes userId = some .up then
      ⟨⟨vdelete s.votes userId, s.upvotes - 1, s.downvotes⟩, none⟩
    else if vlookup s.votes userId = some .down then
      ⟨⟨vdelete s.votes userId, s.upvotes, s.downvotes - 1⟩, none⟩
    else
      ⟨⟨vdelete s.votes userId, s.upvotes, s.downvotes⟩, none⟩

/-- Modelled from the spec: the nine-row transition table of section 4.4
(current per-voter state x requested kind, giving next state and the
deltas on the upvote and downvote aggregates). -/
def voteSpecTable : Option VoteDir → VoteKind → Option VoteDir × Int × Int
  | none, .upvote => (some .up, 1, 0)
  | none, .downvote => (some .down, 0, 1)
  | none, .remove => (none, 0, 0)
  | some .up, .upvote => (none, -1, 0)
  | some .up, .downvote => (some .down, -1, 1)
  | some .up, .remove => (none, -1, 0)
  | some .down, .downvote => (none, 0, -1)
  | some .down, .upvote => (some .up, 1, -1)
  | some .down, .remove => (none, 0, -1)

theorem vlookup_vdelete_self (m : UserVotes) (u : JStr) :
    vlookup (vdelete m u) u = none := by
  induction m with
  | nil => rfl
  | cons p rest ih =>
    by_cases h : p.1 = u
    · simpa [vdelete, h] using ih
    · simpa [vdelete, h, vlookup] using ih

theorem vlookup_vdelete_ne (m : UserVotes) (u v : JStr) (h : u ≠ v) :
    vlookup (vdelete m u) v = vlookup m v := by
  induction m with
  | nil => rfl
  | cons p rest ih =>
    rw [vdelete]
    by_cases hp : p.1 = u
    · rw [if_pos hp, ih]
      simp [vlookup, hp, h]
    · rw [if_neg hp]
      by_cases hv : p.1 = v
      · simp [vlookup, hv]
      · simp [vlookup, hv, ih]

theorem vlookup_append_of_none (m : UserVotes) (u v : JStr) (d : VoteDir)
    (h : vlookup m v = none) :
    vlookup (m ++ [(u, d)]) v = if u = v then some d else none := by
  induction m with
  | nil => simp [vlookup]
  | cons p rest ih =>
    by_cases hp : p.1 = v
    · simp [vlookup, hp] at h
    · rw [vlookup, if_neg hp] at h
      rw [List.cons_append, vlookup, if_neg hp]
      exact ih h

theorem vlookup_vset_self (m : UserVotes) (u : JStr) (d : VoteDir) :
    vlookup (vset m u d) u = some d := by
  have h := vlookup_append_of_none (vdelete m u) u u d (vlookup_vdelete_self m u)
  simpa [vset] using h

theorem vlookup_append_of_some (m : UserVotes) (u v : JStr) (d x : VoteDir)
    (h : vlookup m v = some x) :
    vlookup (m ++ [(u, d)]) v = some x := by
  induction m with
  | nil => simp [vlookup] at h
  | cons p rest ih =>
    by_cases hp : p.1 = v
    · rw [vlookup, if_pos hp] at h
      rw [List.cons_append, vlookup, if_pos hp]
      exact h
    · rw [vlookup, if_neg hp] at h
      rw [List.cons_append, vlookup, if_neg hp]
      exact ih h

theorem vlookup_vset_ne (m : UserVotes) (u : JStr) (d : VoteDir) (v : JStr) (h : u ≠ v) :
    vlookup (vset m u d) v = vlookup m v := by
  rw [vset]
  cases hv : vlookup m v with
  | none =>
    rw [vlookup_append_of_none (vdelete m u) u v d (by rw [vlookup_vdelete_ne m u v h, hv])]
    simp [h]
  | some x =>
    exact vlookup_append_of_some (vdelete m u) u v d x
      (by rw [vlookup_vdelete_ne m u v h, hv])

/-- C1: for every ledger, voter and requested kind, the vote_type switch
realises exactly the spec's nine-row transition table: the voter's next
recorded state, the returned newVoteType, and the deltas applied to the
upvote and downvote aggregates all agree with voteSpecTable row by row. -/
theorem applyVote_matches_spec_table (s : VoteState) (u : JStr) (k : VoteKind) :
    vlookup (applyVote s u k).state.votes u = (voteSpecTable (vlookup s.votes u) k).1 ∧
    (applyVote s u k).newVoteType = (voteSpecTable (vlookup s.votes u) k).1 ∧
    (applyVote s u k).state.upvotes = s.upvotes + (voteSpecTable (vlookup s.votes u) k).2.1 ∧
    (applyVote s u k).state.downvotes = s.downvotes + (voteSpecTable (vlookup s.votes u) k).2.2 := by
  cases k <;> cases h : vlookup s.votes u <;>
    first
    | (simp [applyVote, h, voteSpecTable, vlookup_vdelete_self, vlookup_vset_self] <;> omega)
    | (rename_i d; cases d <;>
        (simp [applyVote, h, voteSpecTable, vlookup_vdelete_self, vlookup_vset_self] <;> omega))

/-- Number of ledger entries with the given direction (the counts obtained
by replaying the user_votes map from empty). -/
def countDir (m : UserVotes) (d : VoteDir) : Nat :=
  match m with
  | [] => 0
  | p :: rest => (if p.2 = d then 1 else 0) + countDir rest d

theorem vdelete_sublist (m : UserVotes) (u : JStr) : List.Sublist (vdelete m u) m := by
  induction m with
  | nil => exact List.Sublist.refl _
  | cons p rest ih =>
    rw [vdelete]
    by_cases hp : p.1 = u
    · rw [if_pos hp]; exact ih.cons p
    · rw [if_neg hp]; exact ih.cons₂ p

theorem not_mem_vdelete_keys (m : UserVotes) (u : JStr) :
    u ∉ (vdelete m u).map Prod.fst := by
  induction m with
  | nil => simp [vdelete]
  | cons p rest ih =>
    rw [vdelete]
    by_cases hp : p.1 = u
    · rw [if_pos hp]; exact ih
    · rw [if_neg hp]
      intro hmem
      rcases List.mem_cons.mp hmem with h1 | h1


      · exact hp h1.symm
      · exact ih h1

theorem vlookup_eq_none_of_not_mem_keys (m : UserVotes) (u : JStr)
    (h : u ∉ m.map Prod.fst) : vlookup m u = none := by
  induction m with
  | nil => rfl
  | cons p rest ih =>
    rw [List.map_cons] at h
    rw [vlookup, if_neg (fun hh => h (List.mem_cons.mpr (Or.inl hh.symm)))]
    exact ih (fun hh => h (List.mem_cons.mpr (Or.inr hh)))

theorem vdelete_eq_self_of_lookup_none (m : UserVotes) (u : JStr)
    (h : vlookup m u = none) : vdelete m u = m := by
  induction m with
  | nil => rfl
  | cons p rest ih =>
    rw [vlookup] at h
    by_cases hp : p.1 = u
    · rw [if_pos hp] at h; cases h
    · rw [if_neg hp] at h
      rw [vdelete, if_neg hp, ih h]

theorem countDir_append (m m' : UserVotes) (d : VoteDir) :
    countDir (m ++ m') d = countDir m d + countDir m' d := by
  induction m with
  | nil => simp [countDir]
  | cons p rest ih =>
    rw [List.cons_append, countDir, countDir, ih]
    omega

theorem countDir_vdelete_of_lookup_some (m : UserVotes) (u : JStr) (x : VoteDir)
    (h : vlookup m u = some x) (hn : (m.map Prod.fst).Nodup) (d : VoteDir) :
    countDir m d = countDir (vdelete m u) d + (if x = d then 1 else 0) := by
  induction m with
  | nil => cases h
  | cons p rest ih =>
    rw [List.map_cons, List.nodup_cons] at hn
    rw [vlookup] at h
    by_cases hp : p.1 = u
    · rw [if_pos hp] at h
      have hx : p.2 = x := by injection h
      have hrest : vlookup rest u = none :=
        vlookup_eq_none_of_not_mem_keys rest u (hp ▸ hn.1)
      rw [vdelete, if_pos hp, vdelete_eq_self_of_lookup_none rest u hrest, countDir, hx]
      by_cases hd : x = d <;> simp [hd] <;> omega
    · rw [if_neg hp] at h
      rw [vdelete, if_neg hp, countDir, countDir, ih h hn.2]
      omega

/-- The consistency invariant between the stored aggregate counters and the
user_votes ledger: distinct keys, and each counter equal to the number of
ledger entries in its direction. -/
def stateInvariant (s : VoteState) : Prop :=
  (s.votes.map Prod.fst).Nodup ∧
  s.upvotes = (countDir s.votes .up : Int) ∧
  s.downvotes = (countDir s.votes .down : Int)

theorem keysNodup_vdelete (m : UserVotes) (u : JStr) (hn : (m.map Prod.fst).Nodup) :
    ((vdelete m u).map Prod.fst).Nodup :=
  hn.sublist ((vdelete_sublist m u).map Prod.fst)

theorem keysNodup_vset (m : UserVotes) (u : JStr) (d : VoteDir)
    (hn : (m.map Prod.fst).Nodup) : ((vset m u d).map Prod.fst).Nodup := by
  rw [vset, List.map_append, List.map_cons, List.map_nil, List.nodup_append]
  refine ⟨keysNodup_vdelete m u hn, List.nodup_singleton _, ?_⟩
  intro a ha hb
  rw [List.mem_singleton] at hb
  rw [hb] at ha
  exact not_mem_vdelete_keys m u ha

theorem countDir_vset (m : UserVotes) (u : JStr) (d d' : VoteDir) :
    countDir (vset m u d) d' = countDir (vdelete m u) d' + (if d = d' then 1 else 0) := by
  rw [vset, countDir_append, countDir, countDir]
  simp

theorem applyVote_preserves_invariant (s : VoteState) (u : JStr) (k : VoteKind)
    (h : stateInvariant s) : stateInvariant (applyVote s u k).state := by
  obtain ⟨hn, hu, hd⟩ := h
  cases hl : vlookup s.votes u with
  | none =>
    have heq : vdelete s.votes u = s.votes := vdelete_eq_self_of_lookup_none s.votes u hl
    cases k <;> refine ⟨?_, ?_, ?_⟩ <;>
      simp [applyVote, hl, countDir_vset, heq, hn,
        keysNodup_vset s.votes u VoteDir.up hn, keysNodup_vset s.votes u VoteDir.down hn] <;>
      omega
  | some x =>
    have h1 := countDir_vdelete_of_lookup_some s.votes u x hl hn VoteDir.up
    have h2 := countDir_vdelete_of_lookup_some s.votes u x hl hn VoteDir.down
    have hdn := keysNodup_vdelete s.votes u hn
    cases x <;> simp at h1 h2 <;> cases k <;> refine ⟨?_, ?_, ?_⟩ <;>
      simp [applyVote, hl, countDir_vset, hdn,
        keysNodup_vset s.votes u VoteDir.up hn, keysNodup_vset s.votes u VoteDir.down hn] <;>
      omega

/-- Replaying a sequence of vote requests through the switch, starting from
a comment created with an empty ledger and zero counters. -/
def replayVotes (ops : List (JStr × VoteKind)) : VoteState :=
  ops.foldl (fun t op => (applyVote t op.1 op.2).state) ⟨[], 0, 0⟩

theorem replay_invariant (ops : List (JStr × VoteKind)) (s : VoteState)
    (h : stateInvariant s) :
    stateInvariant (ops.foldl (fun t op => (applyVote t op.1 op.2).state) s) := by
  induction ops generalizing s with
  | nil => exact h
  | cons op rest ih => exact ih _ (applyVote_preserves_invariant s op.1 op.2 h)

/-- The comments-row fields read and written by the votes handler. -/
structure CommentRec where
  user_votes : UserVotes
  upvotes : Int
  downvotes : Int
  vote_score : Int
deriving DecidableEq, Repr

/-- The update object written back to the comments row: the new counters,
the re-serialised user_votes map, and vote_score recomputed as
upvotes - downvotes (line 147 of votes/index.ts). -/
def voteWriteBack (o : VoteOutcome) : CommentRec :=
  ⟨o.state.votes, o.state.upvotes, o.state.downvotes, o.state.upvotes - o.state.downvotes⟩

/-- C5: after every transition the stored vote_score equals the stored
upvotes minus downvotes, and after any sequence of transitions replayed
from an empty ledger with zero counters, the stored counters equal the
counts recomputed from the final ledger (the ledger remains the source of
truth for the cached aggregates). -/
theorem vote_score_and_replay_consistency :
    (∀ s u k, (voteWriteBack (applyVote s u k)).vote_score =
      (voteWriteBack (applyVote s u k)).upvotes - (voteWriteBack (applyVote s u k)).downvotes) ∧
    (∀ ops, (replayVotes ops).upvotes = (countDir (replayVotes ops).votes .up : Int) ∧
      (replayVotes ops).downvotes = (countDir (replayVotes ops).votes .down : Int)) := by
  constructor
  · intro s u k
    rfl
  · intro ops
    have h := replay_invariant ops ⟨[], 0, 0⟩ ⟨List.nodup_nil, rfl, rfl⟩
    exact ⟨h.2.1, h.2.2⟩

/-- The identity payload carried by a verified token (interface JWTPayload
of shared/jwt.ts: uid and ct, nothing else). -/
structure JWTPayload where
  uid : JStr
  ct : JStr
deriving DecidableEq, Repr

/-- The users-row restriction fields (user_banned, user_muted_until,
user_shadow_banned, user_warnings). -/
structure UserStatusRec where
  user_banned : Bool
  user_muted_until : Option Int
  user_shadow_banned : Bool
  user_warnings : Nat
deriving DecidableEq, Repr

/-- Environment read by the votes handler: the voting_enabled feature
toggle, the addressed comments row, and the users table.  The users table
is part of the environment so that (in)dependence on restriction state can
be stated; the handler itself never reads it. -/
structure VoteEnv where
  voting_enabled : Bool
  comment : Option CommentRec
  users : JStr → Option UserStatusRec

/-- Outcome of one votes request, by HTTP status class. -/
inductive VoteResponse where
  | badRequest
  | votingDisabled
  | unauthorized
  | notFound
  | ok (updatedComment : CommentRec) (userVote : Option VoteDir)
deriving DecidableEq, Repr

/-- The validVoteTypes check plus the switch scrutinee of votes/index.ts. -/
def kindOfVoteType (vt : JStr) : Option VoteKind :=
  if vt = "upvote".data then some .upvote
  else if vt = "downvote".data then some .downvote
  else if vt = "remove".data then some .remove
  else none

/-- The votes edge function (votes/index.ts lines 26-186): field presence
checks, vote_type validation, voting_enabled toggle, token verification
(abstracted as the verifier function vf), comment lookup, the vote switch,
and the write-back.  The database update is modelled as succeeding; the
fire-and-forget activity tracking does not affect the response or the
ledger and is omitted.  No restriction (ban) check appears anywhere on
this path, faithfully to the source. -/
def voteServe (vf : JStr → Option JWTPayload) (env : VoteEnv)
    (comment_id jwt_token vote_type : JStr) : VoteResponse :=
  if comment_id = [] ∨ vote_type = [] ∨ jwt_token = [] then .badRequest
  else
    match kindOfVoteType vote_type with
    | none => .badRequest
    | some k =>
      if ¬ env.voting_enabled then .votingDisabled
      else
        match vf jwt_token with
        | none => .unauthorized
        | some payload =>
          match env.comment with
          | none => .notFound
          | some c =>
            let o := applyVote ⟨c.user_votes, c.upvotes, c.downvotes⟩ payload.uid k
            .ok (voteWriteBack o) o.newVoteType

theorem vlookup_applyVote_ne (s : VoteState) (u : JStr) (k : VoteKind) (v : JStr)
    (h : u ≠ v) :
    vlookup (applyVote s u k).state.votes v = vlookup s.votes v := by
  cases k <;> simp only [applyVote] <;> split_ifs <;>
    simp [vlookup_vdelete_ne _ _ _ h, vlookup_vset_ne _ _ _ _ h]

/-- C10: the ledger entry read and written by an authorized vote request is
the one keyed by the verified token's uid: a successful request with
verified payload p1 writes back exactly the switch applied at key p1.uid,
and for a second verified token with a distinct uid the second voter's
recorded direction is untouched. -/
theorem voteServe_keyed_by_verified_uid
    (vf : JStr → Option JWTPayload) (env : VoteEnv)
    (comment_id tok1 tok2 vote_type : JStr) (p1 p2 : JWTPayload) (c c' : CommentRec)
    (uv : Option VoteDir) (k : VoteKind)
    (hvf1 : vf tok1 = some p1) (hvf2 : vf tok2 = some p2)
    (hc : env.comment = some c) (hk : kindOfVoteType vote_type = some k)
    (hok : voteServe vf env comment_id tok1 vote_type = .ok c' uv)
    (hne : p1.uid ≠ p2.uid) :
    c' = voteWriteBack (applyVote ⟨c.user_votes, c.upvotes, c.downvotes⟩ p1.uid k) ∧
    vlookup c'.user_votes p2.uid = vlookup c.user_votes p2.uid := by
  by_cases h0 : comment_id = [] ∨ vote_type = [] ∨ tok1 = []
  · rw [voteServe, if_pos h0] at hok
    cases hok
  · cases henb : env.voting_enabled with
    | false =>
      rw [voteServe, if_neg h0, hk, henb] at hok
      simp at hok
    | true =>
      have hserve : voteServe vf env comment_id tok1 vote_type =
          .ok (voteWriteBack (applyVote ⟨c.user_votes, c.upvotes, c.downvotes⟩ p1.uid k))
            (applyVote ⟨c.user_votes, c.upvotes, c.downvotes⟩ p1.uid k).newVoteType := by
        rw [voteServe, if_neg h0, hk, hvf1, hc, henb]
        simp
      rw [hserve] at hok
      injection hok with hA hB
      refine ⟨hA.symm, ?_⟩
      rw [← hA]
      exact vlookup_applyVote_ne ⟨c.user_votes, c.upvotes, c.downvotes⟩ p1.uid k p2.uid hne

/-- Concrete verifier used to exercise voteServe: two tokens for two
distinct voters. -/
def c10Vf : JStr → Option JWTPayload := fun t =>
  if t = "t1".data then some ⟨"u1".data, "al".data⟩
  else if t = "t2".data then some ⟨"u2".data, "al".data⟩
  else none

/-- Concrete environment with voting enabled and a fresh comment. -/
def c10Env : VoteEnv := ⟨true, some ⟨[], 0, 0, 0⟩, fun _ => none⟩

theorem voteServe_keyed_by_verified_uid_witness :
    voteWriteBack (applyVote ⟨[], 0, 0⟩ "u1".data VoteKind.upvote) =
      voteWriteBack (applyVote ⟨[], 0, 0⟩ "u1".data VoteKind.upvote) ∧
    vlookup (voteWriteBack (applyVote ⟨[], 0, 0⟩ "u1".data VoteKind.upvote)).user_votes
        "u2".data = vlookup ([] : UserVotes) "u2".data :=
  voteServe_keyed_by_verified_uid c10Vf c10Env "c1".data "t1".data "t2".data "upvote".data
    ⟨"u1".data, "al".data⟩ ⟨"u2".data, "al".data⟩ ⟨[], 0, 0, 0⟩
    (voteWriteBack (applyVote ⟨[], 0, 0⟩ "u1".data VoteKind.upvote))
    (applyVote ⟨[], 0, 0⟩ "u1".data VoteKind.upvote).newVoteType VoteKind.upvote
    (by decide) (by decide) rfl (by decide) (by decide) (by decide)

/-- Two requests racing on the same comment under the handler's plain
read-then-write: both read the same stored row, both compute, and the
second unconditional row update overwrites the first (last write wins).
There is no conditional update or row lock in the source. -/
def interleavedVotes (c : CommentRec) (u1 : JStr) (k1 : VoteKind)
    (u2 : JStr) (k2 : VoteKind) : CommentRec :=
  let w1 := voteWriteBack (applyVote ⟨c.user_votes, c.upvotes, c.downvotes⟩ u1 k1)
  let w2 := voteWriteBack (applyVote ⟨c.user_votes, c.upvotes, c.downvotes⟩ u2 k2)
  let _ := w1
  w2

/-- The same two requests applied one after the other (the serialisation the
claim requires). -/
def serialVotes (c : CommentRec) (u1 : JStr) (k1 : VoteKind)
    (u2 : JStr) (k2 : VoteKind) : CommentRec :=
  let w1 := voteWriteBack (applyVote ⟨c.user_votes, c.upvotes, c.downvotes⟩ u1 k1)
  voteWriteBack (applyVote ⟨w1.user_votes, w1.upvotes, w1.downvotes⟩ u2 k2)

/-- C9: the handler's read-modify-write admits a lost update.  Two upvotes
by distinct users on a fresh comment, when both read the pre-transition
row, end with upvotes = 1 and the first voter's ledger entry gone, while
any serialisation ends with upvotes = 2; so the code provides no
per-comment mutual exclusion, contrary to the claim. -/
theorem vote_lost_update_race :
    (interleavedVotes ⟨[], 0, 0, 0⟩ "u1".data .upvote "u2".data .upvote).upvotes = 1 ∧
    vlookup (interleavedVotes ⟨[], 0, 0, 0⟩ "u1".data .upvote "u2".data .upvote).user_votes
      "u1".data = none ∧
    (serialVotes ⟨[], 0, 0, 0⟩ "u1".data .upvote "u2".data .upvote).upvotes = 2 ∧
    interleavedVotes ⟨[], 0, 0, 0⟩ "u1".data .upvote "u2".data .upvote ≠
      serialVotes ⟨[], 0, 0, 0⟩ "u1".data .upvote "u2".data .upvote := by
  decide

/-- The roleHierarchy table of shared/config.ts hasMinRole.  A name outside
the table has no rank (the JavaScript lookup yields undefined). -/
def roleHierarchy (r : String) : Option Nat :=
  if r = "user" then some 0
  else if r = "moderator" then some 1
  else if r = "admin" then some 2
  else if r = "super_admin" then some 3
  else none

/-- getUserRole of shared/config.ts: role lookup in the mod_plus table,
where a missing record or a query error resolves to 'user', as does a
null/empty stored role (data?.role || 'user'). -/
def getUserRole (db : String → Option String) (userId : String) : String :=
  match db userId with
  | none => "user"
  | some r => if r = "" then "user" else r

/-- hasMinRole of shared/config.ts: resolves the actor's live role, then
compares roleHierarchy ranks; any comparison involving undefined is false,
as in JavaScript. -/
def hasMinRole (db : String → Option String) (userId minRole : String) : Bool :=
  match roleHierarchy (getUserRole db userId), roleHierarchy minRole with
  | some a, some b => decide (b ≤ a)
  | _, _ => false

/-- Modelled from the claim: rank table user=0 < moderator=1 < admin=2 <
super_admin=3, to refine the source comparison against. -/
def roleRankSpec (r : String) : Nat :=
  if r = "user" then 0
  else if r = "moderator" then 1
  else if r = "admin" then 2
  else if r = "super_admin" then 3
  else 0

/-- C3: over the full 4x4 matrix of known roles, the authorization check
grants exactly when the actor's rank is at least the required rank. -/
theorem hasMinRole_iff_rank_le (actor minRole : String)
    (ha : actor ∈ ["user", "moderator", "admin", "super_admin"])
    (hm : minRole ∈ ["user", "moderator", "admin", "super_admin"])
    (db : String → Option String) (userId : String)
    (hrole : getUserRole db userId = actor) :
    (hasMinRole db userId minRole = true ↔ roleRankSpec minRole ≤ roleRankSpec actor) := by
  rw [hasMinRole, hrole]
  fin_cases ha <;> fin_cases hm <;> decide

theorem hasMinRole_iff_rank_le_witness :
    hasMinRole (fun _ => some "moderator") "alice" "admin" = true ↔
      roleRankSpec "admin" ≤ roleRankSpec "moderator" :=
  hasMinRole_iff_rank_le "moderator" "admin" (by decide) (by decide)
    (fun _ => some "moderator") "alice" (by decide)

/-- getUserRoleFromDB of the identity-only jwt module: same resolution as
getUserRole, with an optional client_type filter on the query. -/
def getUserRoleFromDB (db : String → Option String → Option String)
    (userId : String) (clientType : Option String) : String :=
  match db userId clientType with
  | none => "user"
  | some r => if r = "" then "user" else r

/-- C7: an identity with no persistent record resolves to the lowest
privilege 'user' in both role resolvers, never to an error (both functions
are total and every failure path of the source returns 'user'). -/
theorem resolveRole_defaults_to_user
    (db : String → Option String) (db2 : String → Option String → Option String)
    (userId : String) (clientType : Option String)
    (h1 : db userId = none) (h2 : db2 userId clientType = none) :
    getUserRole db userId = "user" ∧ getUserRoleFromDB db2 userId clientType = "user" := by
  constructor <;> simp [getUserRole, getUserRoleFromDB, h1, h2]

theorem resolveRole_defaults_to_user_witness :
    getUserRole (fun _ => none) "ghost" = "user" ∧
    getUserRoleFromDB (fun _ _ => none) "ghost" (some "anilist") = "user" :=
  resolveRole_defaults_to_user (fun _ => none) (fun _ _ => none) "ghost" (some "anilist")
    rfl rfl

/-- Outcome of a moderation ban_user request, by HTTP status class. -/
inductive ModResponse where
  | forbidden
  | badRequest
  | notFound
  | okBan (target_user_id target_client_type : String) (shadow_ban : Bool)
deriving DecidableEq, Repr

/-- handleBanUser of the moderation function (lines 587-660): the admin
role check runs first, then required-field validation, then the target user
lookup (404 when absent), then the ban update, modelled as succeeding. -/
def handleBanUser (rolesDb : String → Option String)
    (usersDb : String → String → Option String)
    (userId target_user_id target_client_type reason : String)
    (shadow_ban : Bool) : ModResponse :=
  if ¬ hasMinRole rolesDb userId "admin" then .forbidden
  else if target_user_id = "" ∨ target_client_type = "" ∨ reason = "" then .badRequest
  else
    match usersDb target_user_id target_client_type with
    | none => .notFound
    | some _ => .okBan target_user_id target_client_type shadow_ban

/-- C8: an actor whose resolved role is moderator or user is denied
ban_user with the 403 privilege failure, and since the users table is
universally quantified the outcome is identical whether or not the target
record exists: the role check precedes the target lookup. -/
theorem banUser_denied_for_moderator
    (rolesDb : String → Option String) (userId : String)
    (hrole : getUserRole rolesDb userId = "moderator" ∨ getUserRole rolesDb userId = "user")
    (usersDb : String → String → Option String)
    (target_user_id target_client_type reason : String) (shadow_ban : Bool) :
    handleBanUser rolesDb usersDb userId target_user_id target_client_type reason shadow_ban =
      .forbidden := by
  have h : hasMinRole rolesDb userId "admin" = false := by
    rw [hasMinRole]
    rcases hrole with h | h <;> rw [h] <;> decide
  rw [handleBanUser, h]
  simp

theorem banUser_denied_for_moderator_witness :
    handleBanUser (fun _ => some "moderator") (fun _ _ => none)
      "m1" "t1" "anilist" "spam" false = .forbidden ∧
    handleBanUser (fun _ => some "moderator") (fun _ _ => some "bob")
      "m1" "t1" "anilist" "spam" false = .forbidden :=
  ⟨banUser_denied_for_moderator (fun _ => some "moderator") "m1" (Or.inl (by decide))
      (fun _ _ => none) "t1" "anilist" "spam" false,
    banUser_denied_for_moderator (fun _ => some "moderator") "m1" (Or.inl (by decide))
      (fun _ _ => some "bob") "t1" "anilist" "spam" false⟩

/-- Outcome of the create-comment gating sequence, by HTTP status class. -/
inductive CommentGateResult where
  | unauthorized
  | systemDisabled
  | badContent
  | bannedDenied
  | mutedDenied
  | proceed
deriving DecidableEq, Repr

/-- The token payload shape used by the comments function
(shared/jwt.ts interface JWTPayload). -/
structure CJWTPayload where
  user_id : String
  username : String
  client_type : String
  role : String
deriving DecidableEq, Repr

/-- The gating prefix of handleCreateComment (comments/index.ts lines
105-160): token verification, system_enabled toggle, content length
validation, then the user_banned and user_muted_until checks against the
users row; everything after the restriction checks is abstracted as
proceed. -/
def handleCreateCommentGate (jwtPayload : Option CJWTPayload) (system_enabled : Bool)
    (contentLength max_comment_length : Nat) (userStatus : Option UserStatusRec)
    (now : Int) : CommentGateResult :=
  match jwtPayload with
  | none => .unauthorized
  | some _ =>
    if ¬ system_enabled then .systemDisabled
    else if contentLength < 1 ∨ contentLength > max_comment_length then .badContent
    else if (match userStatus with | some st => st.user_banned | none => false) then
      .bannedDenied
    else if (match userStatus with
             | some st =>
               match st.user_muted_until with
               | some t => decide (t > now)
               | none => false
             | none => false) then .mutedDenied
    else .proceed

/-- Outcome of the create-report gating sequence, by HTTP status class. -/
inductive ReportGateResult where
  | badRequest
  | notFound
  | deletedComment
  | authorAlreadyBanned
  | created
deriving DecidableEq, Repr

/-- The reported comment fields consulted by handleCreateReport. -/
structure ReportedComment where
  deleted : Bool
deriving DecidableEq, Repr

/-- The gating prefix of handleCreateReport (reports function): field
presence, reporter_info shape validation, reason whitelist, comment lookup,
deleted check, then the ban check against the REPORTED COMMENT'S AUTHOR.
The final argument is the users-table row of the reporter; faithfully to
the source it is never consulted (reports carry client-supplied
reporter_info and no token). -/
def handleCreateReportGate (comment_id : String) (reporter_present reporter_valid : Bool)
    (reason : String) (comment : Option ReportedComment)
    (authorStatus : Option UserStatusRec) (reporterStatus : Option UserStatusRec) :
    ReportGateResult :=
  let _ := reporterStatus
  if comment_id = "" ∨ ¬ reporter_present ∨ reason = "" then .badRequest
  else if ¬ reporter_valid then .badRequest
  else if ¬ (reason.toLower ∈
      ["spam", "offensive", "harassment", "spoiler", "nsfw", "off_topic", "other"]) then
    .badRequest
  else
    match comment with
    | none => .notFound
    | some c =>
      if c.deleted then .deletedComment
      else if (match authorStatus with | some st => st.user_banned | none => false) then
        .authorAlreadyBanned
      else .created

/-- Concrete verifier mapping one token to the banned user's identity. -/
def c4Vf : JStr → Option JWTPayload := fun t =>
  if t = "tok".data then some ⟨"u".data, "al".data⟩ else none

/-- Concrete environment: voting enabled, a fresh comment, and a users
table in which the requester u is banned. -/
def c4Env : VoteEnv :=
  ⟨true, some ⟨[], 0, 0, 0⟩, fun u => if u = "u".data then some ⟨true, none, false, 0⟩ else none⟩

/-- C4 counterexample: the requester is banned in the users table, yet the
vote request succeeds and the vote is applied to the ledger; the votes
handler performs no restriction check at all. -/
theorem banned_vote_applied_counterexample :
    (c4Env.users "u".data).elim false (fun st => st.user_banned) = true ∧
    voteServe c4Vf c4Env "c1".data "tok".data "upvote".data =
      .ok ⟨[("u".data, .up)], 1, 0, 1⟩ (some .up) := by
  decide

/-- C4 (amended): a banned user is denied comment creation with the banned
reason (under an enabled system and valid content), but neither the votes
handler nor the report-creation gate consults the requester's ban state:
their outcomes are identical for any two users tables and any two reporter
statuses respectively. -/
theorem banned_gating_amended :
    (∀ p system_enabled contentLength maxLen st now,
      system_enabled = true → 1 ≤ contentLength → contentLength ≤ maxLen →
      st.user_banned = true →
      handleCreateCommentGate (some p) system_enabled contentLength maxLen (some st) now =
        .bannedDenied) ∧
    (∀ vf voting comment users1 users2 cid tok vt,
      voteServe vf ⟨voting, comment, users1⟩ cid tok vt =
        voteServe vf ⟨voting, comment, users2⟩ cid tok vt) ∧
    (∀ comment_id rp rv reason comment authorStatus r1 r2,
      handleCreateReportGate comment_id rp rv reason comment authorStatus r1 =
        handleCreateReportGate comment_id rp rv reason comment authorStatus r2) := by
  refine ⟨?_, ?_, ?_⟩
  · intro p se cl ml st now hse h1 h2 hb
    subst hse
    have hcond : ¬ (cl < 1 ∨ cl > ml) := by omega
    simp [handleCreateCommentGate, hcond, hb]
    omega
  · intro vf voting comment users1 users2 cid tok vt
    rfl
  · intro comment_id rp rv reason comment authorStatus r1 r2
    rfl

theorem banned_gating_amended_witness :
    handleCreateCommentGate (some ⟨"u", "name", "anilist", "user"⟩) true 5 100
      (some ⟨true, none, false, 0⟩) 0 = .bannedDenied ∧
    voteServe c4Vf ⟨true, some ⟨[], 0, 0, 0⟩, fun _ => some ⟨true, none, false, 0⟩⟩
        "c1".data "tok".data "upvote".data =
      voteServe c4Vf ⟨true, some ⟨[], 0, 0, 0⟩, fun _ => none⟩
        "c1".data "tok".data "upvote".data ∧
    handleCreateReportGate "c9" true true "spam" (some ⟨false⟩) none
        (some ⟨true, none, false, 0⟩) =
      handleCreateReportGate "c9" true true "spam" (some ⟨false⟩) none none :=
  ⟨banned_gating_amended.1 ⟨"u", "name", "anilist", "user"⟩ true 5 100
      ⟨true, none, false, 0⟩ 0 rfl (by decide) (by decide) rfl,
    banned_gating_amended.2.1 c4Vf true (some ⟨[], 0, 0, 0⟩)
      (fun _ => some ⟨true, none, false, 0⟩) (fun _ => none)
      "c1".data "tok".data "upvote".data,
    banned_gating_amended.2.2 "c9" true true "spam" (some ⟨false⟩) none
      (some ⟨true, none, false, 0⟩) none⟩

/-- Base64 alphabet indexing used by btoa. -/
def b64CharOf (n : Nat) : Char :=
  if n < 26 then Char.ofNat ('A'.toNat + n)
  else if n < 52 then Char.ofNat ('a'.toNat + (n - 26))
  else if n < 62 then Char.ofNat ('0'.toNat + (n - 52))
  else if n = 62 then '+'
  else '/'

/-- Inverse base64 alphabet lookup used by atob. -/
def b64ValOf (c : Char) : Option Nat :=
  if 'A' ≤ c ∧ c ≤ 'Z' then some (c.toNat - 'A'.toNat)
  else if 'a' ≤ c ∧ c ≤ 'z' then some (c.toNat - 'a'.toNat + 26)
  else if '0' ≤ c ∧ c ≤ '9' then some (c.toNat - '0'.toNat + 52)
  else if c = '+' then some 62
  else if c = '/' then some 63
  else none

/-- The composite btoa(String.fromCharCode(...data)) of base64UrlEncode:
standard padded base64 over a byte list. -/
def btoa : List Nat → List Char
  | [] => []
  | [a] => [b64CharOf (a / 4), b64CharOf (a % 4 * 16), '=', '=']
  | [a, b] => [b64CharOf (a / 4), b64CharOf (a % 4 * 16 + b / 16), b64CharOf (b % 16 * 4), '=']
  | a :: b :: c :: rest =>
    b64CharOf (a / 4) :: b64CharOf (a % 4 * 16 + b / 16) ::
      b64CharOf (b % 16 * 4 + c / 64) :: b64CharOf (c % 64) :: btoa rest

/-- Sextet-to-byte reassembly of forgiving base64 decoding; a trailing
group of two or three sextets contributes one or two bytes, leftover bits
are discarded as atob does. -/
def b64DecodeQuads : List Nat → List Nat
  | s1 :: s2 :: s3 :: s4 :: rest =>
    (s1 * 4 + s2 / 16) :: (s2 % 16 * 16 + s3 / 4) :: (s3 % 4 * 64 + s4) :: b64DecodeQuads rest
  | [s1, s2] => [s1 * 4 + s2 / 16]
  | [s1, s2, s3] => [s1 * 4 + s2 / 16, s2 % 16 * 16 + s3 / 4]
  | _ => []

/-- ASCII whitespace stripped by forgiving base64. -/
def isAsciiWs (c : Char) : Bool :=
  if c = ' ' ∨ c = '\t' ∨ c = '\n' ∨ c.toNat = 12 ∨ c = '\r' then true else false

/-- Removal of up to two trailing padding characters. -/
def stripTrailingEq (t : List Char) : List Char :=
  match t.reverse with
  | '=' :: '=' :: rest => rest.reverse
  | '=' :: rest => rest.reverse
  | _ => t

/-- The atob builtin (WHATWG forgiving base64): strip ASCII whitespace,
strip up to two trailing '=' when the length is a multiple of four, reject
length 1 mod 4 and any character outside the alphabet, then decode.  A
thrown InvalidCharacterError from the source is modelled as none (callers
wrap atob in try/catch resolving to null). -/
def atob (s : List Char) : Option (List Nat) :=
  let t := s.filter (fun c => ! isAsciiWs c)
  let t2 := if t.length % 4 = 0 then stripTrailingEq t else t
  if t2.length % 4 = 1 then none
  else
    match t2.mapM b64ValOf with
    | none => none
    | some vals => some (b64DecodeQuads vals)

/-- The two URL-safe character replacements of base64UrlEncode. -/
def urlRepl (c : Char) : Char :=
  if c = '+' then '-' else if c = '/' then '_' else c

/-- The reverse replacements applied before decoding. -/
def urlReplBack (c : Char) : Char :=
  if c = '-' then '+' else if c = '_' then '/' else c

/-- base64UrlEncode of the jwt module: btoa, then + to -, / to _, and all
padding removed. -/
def base64UrlEncode (data : List Nat) : List Char :=
  ((btoa data).map urlRepl).filter (fun c => ! decide (c = '='))

/-- base64UrlDecode of the jwt module: reverse the replacements, re-pad to
a multiple of four, then atob. -/
def base64UrlDecode (s : List Char) : Option (List Nat) :=
  let r := s.map urlReplBack
  let padded := r ++ List.replicate ((4 - r.length % 4) % 4) '='
  atob padded

/-- UTF-8 encoding of one code point (the TextEncoder builtin). -/
def utf8EncodeChar (c : Char) : List Nat :=
  let n := c.toNat
  if n < 128 then [n]
  else if n < 2048 then [192 + n / 64, 128 + n % 64]
  else if n < 65536 then [224 + n / 4096, 128 + n / 64 % 64, 128 + n % 64]
  else [240 + n / 262144, 128 + n / 4096 % 64, 128 + n / 64 % 64, 128 + n % 64]

/-- TextEncoder().encode: UTF-8 bytes of a string. -/
def textEncode (s : List Char) : List Nat :=
  s.foldr (fun c acc => utf8EncodeChar c ++ acc) []

/-- The binary string returned by atob: one character per byte. -/
def bytesToChars (bs : List Nat) : List Char :=
  bs.map Char.ofNat

/-- Opening brace character. -/
def lbrace : Char := Char.ofNat 123

/-- Closing brace character. -/
def rbrace : Char := Char.ofNat 125

/-- Lowercase hex digit used by JSON.stringify control escapes. -/
def hexDigit (n : Nat) : Char :=
  if n < 10 then Char.ofNat ('0'.toNat + n) else Char.ofNat ('a'.toNat + (n - 10))

/-- JSON.stringify escaping of one string character: quote, backslash and
the named control escapes, u-escapes for remaining controls, everything
else (including all non-ASCII) literal. -/
def jsonEscapeChar (c : Char) : List Char :=
  if c = '"' then ['\\', '"']
  else if c = '\\' then ['\\', '\\']
  else if c.toNat = 8 then ['\\', 'b']
  else if c = '\t' then ['\\', 't']
  else if c = '\n' then ['\\', 'n']
  else if c.toNat = 12 then ['\\', 'f']
  else if c = '\r' then ['\\', 'r']
  else if c.toNat < 32 then
    ['\\', 'u', '0', '0', hexDigit (c.toNat / 16), hexDigit (c.toNat % 16)]
  else [c]

/-- JSON.stringify escaping of a whole string body. -/
def jsonEscape (s : List Char) : List Char :=
  s.foldr (fun c acc => jsonEscapeChar c ++ acc) []

/-- A JSON string literal: quoted escaped body. -/
def jsonQuote (s : List Char) : List Char :=
  '"' :: jsonEscape s ++ ['"']

/-- JSON.stringify of the token payload object with fields uid and ct, in
insertion order with no whitespace, as the builtin emits it. -/
def jsonStringifyPayload (uid ct : List Char) : List Char :=
  lbrace :: (jsonQuote "uid".data ++ ':' :: jsonQuote uid ++
    ',' :: jsonQuote "ct".data ++ ':' :: jsonQuote ct) ++ [rbrace]

/-- JSON.stringify of the fixed header object alg HS256, typ JWT. -/
def headerJson : List Char :=
  lbrace :: (jsonQuote "alg".data ++ ':' :: jsonQuote "HS256".data ++
    ',' :: jsonQuote "typ".data ++ ':' :: jsonQuote "JWT".data) ++ [rbrace]

/-- Hex digit value for JSON u-escapes. -/
def hexVal (c : Char) : Option Nat :=
  if '0' ≤ c ∧ c ≤ '9' then some (c.toNat - '0'.toNat)
  else if 'a' ≤ c ∧ c ≤ 'f' then some (c.toNat - 'a'.toNat + 10)
  else if 'A' ≤ c ∧ c ≤ 'F' then some (c.toNat - 'A'.toNat + 10)
  else none

/-- The named single-character escapes of a JSON string literal. -/
def parseEscChar (e : Char) : Option Char :=
  if e = '"' then some '"'
  else if e = '\\' then some '\\'
  else if e = '/' then some '/'
  else if e = 'b' then some (Char.ofNat 8)
  else if e = 't' then some '\t'
  else if e = 'n' then some '\n'
  else if e = 'f' then some (Char.ofNat 12)
  else if e = 'r' then some '\r'
  else none

/-- JSON string-literal body parser (input starts after the opening quote);
returns the decoded body and the rest after the closing quote.  Rejects
unescaped control characters and malformed escapes as JSON.parse does. -/
def parseJStringBody : List Char → Option (List Char × List Char)
  | [] => none
  | '"' :: rest => some ([], rest)
  | '\\' :: 'u' :: h1 :: h2 :: h3 :: h4 :: rest3 =>
    match hexVal h1, hexVal h2, hexVal h3, hexVal h4 with
    | some v1, some v2, some v3, some v4 =>
      (parseJStringBody rest3).map
        (fun p => (Char.ofNat (v1 * 4096 + v2 * 256 + v3 * 16 + v4) :: p.1, p.2))
    | _, _, _, _ => none
  | '\\' :: e :: rest2 =>
    match parseEscChar e with
    | some ch => (parseJStringBody rest2).map (fun p => (ch :: p.1, p.2))
    | none => none
  | ['\\'] => none
  | c :: rest =>
    if c.toNat < 32 then none
    else (parseJStringBody rest).map (fun p => (c :: p.1, p.2))

/-- Member list parser for a flat JSON object of string fields, fuelled by
one unit per member; expects key : value pairs separated by commas and
terminated by the closing brace ending the input. -/
def parseMembersF : Nat → List Char → Option (List (List Char × List Char))
  | 0, _ => none
  | fuel + 1, s =>
    match s with
    | '"' :: rest =>
      match parseJStringBody rest with
      | none => none
      | some (k, rest1) =>
        match rest1 with
        | ':' :: '"' :: rest2 =>
          match parseJStringBody rest2 with
          | none => none
          | some (v, rest3) =>
            match rest3 with
            | ',' :: rest4 => (parseMembersF fuel rest4).map (fun ms => (k, v) :: ms)
            | [d] => if d = rbrace then some [(k, v)] else none
            | _ => none
        | _ => none
    | _ => none

/-- The fragment of the JSON.parse builtin exercised by the token payload
path: a flat object with string keys and string values and no interleaved
whitespace (exactly the language JSON.stringify emits for such objects);
every input outside the fragment parses to none, as the handler's
try/catch turns parse errors into null. -/
def parseJsonFlatObj (s : List Char) : Option (List (List Char × List Char)) :=
  match s with
  | [] => none
  | c :: rest =>
    if c = lbrace then
      if rest = [rbrace] then some []
      else parseMembersF rest.length rest
    else none

/-- JavaScript property access on the parsed object: with duplicate keys
the later member wins, as in a JavaScript object literal. -/
def jGet (obj : List (List Char × List Char)) (k : List Char) : Option (List Char) :=
  match obj with
  | [] => none
  | (k1, v1) :: rest =>
    match jGet rest k with
    | some v => some v
    | none => if k1 = k then some v1 else none

/-- CLIENT_CODE_MAP with the || 'oth' fallback of generateJWT. -/
def clientCodeOf (clientType : List Char) : List Char :=
  if clientType = "anilist".data then "al".data
  else if clientType = "myanimelist".data then "mal".data
  else if clientType = "simkl".data then "sim".data
  else if clientType = "other".data then "oth".data
  else "oth".data

/-- CLIENT_CODE_REVERSE_MAP lookup: none models the undefined result for
an unknown code. -/
def clientCodeReverse (code : List Char) : Option (List Char) :=
  if code = "al".data then some "anilist".data
  else if code = "mal".data then some "myanimelist".data
  else if code = "sim".data then some "simkl".data
  else if code = "oth".data then some "other".data
  else none

/-- JavaScript String.prototype.split with separator '.'. -/
def splitOnDot (s : List Char) : List (List Char) :=
  match s with
  | [] => [[]]
  | c :: rest =>
    if c = '.' then [] :: splitOnDot rest
    else
      match splitOnDot rest with
      | [] => [[c]]
      | p :: ps => (c :: p) :: ps

/-- generateJWT of the identity-only jwt module: minimal payload uid/ct,
fixed header, three base64url segments joined by dots, signed over
header.payload with HMAC-SHA256 (the hmac parameter abstracts the Web
Crypto primitive as an arbitrary deterministic keyed function).  The
missing-secret configuration error path throws in the source and is outside
this embedding, which takes the secret as given. -/
def generateJWT (hmac : List Char → List Char → List Nat)
    (secret userId clientType : List Char) : List Char :=
  let clientCode := clientCodeOf clientType
  let headerEncoded := base64UrlEncode (textEncode headerJson)
  let payloadEncoded := base64UrlEncode (textEncode (jsonStringifyPayload userId clientCode))
  let dataToSign := headerEncoded ++ '.' :: payloadEncoded
  let signatureEncoded := base64UrlEncode (hmac dataToSign secret)
  dataToSign ++ '.' :: signatureEncoded

/-- verifyJWT of the identity-only jwt module: missing secret resolves to
none; the token must split into exactly three dot segments; the signature
segment is base64url-decoded and compared against the recomputed tag over
header.payload; the payload segment is decoded with atob after the reverse
replacements (no re-padding) and parsed as JSON; a missing or falsy uid or
ct, or a ct outside CLIENT_CODE_REVERSE_MAP, is invalid.  Every failure
path of the source, thrown or explicit, returns null; the embedding is a
total function into Option, so verification always produces a definite
result. -/
def verifyJWT (hmac : List Char → List Char → List Nat)
    (secret : Option (List Char)) (token : List Char) : Option JWTPayload :=
  match secret with
  | none => none
  | some sec =>
    match splitOnDot token with
    | [headerEncoded, payloadEncoded, signatureEncoded] =>
      match base64UrlDecode signatureEncoded with
      | none => none
      | some signature =>
        if hmac (headerEncoded ++ '.' :: payloadEncoded) sec = signature then
          match atob (payloadEncoded.map urlReplBack) with
          | none => none
          | some payloadBytes =>
            match parseJsonFlatObj (bytesToChars payloadBytes) with
            | none => none
            | some payload =>
              match jGet payload "uid".data, jGet payload "ct".data with
              | some uid, some ct =>
                if uid = [] then none
                else if ct = [] then none
                else
                  match clientCodeReverse ct with
                  | none => none
                  | some _ => some ⟨uid, ct⟩
              | _, _ => none
        else none
    | _ => none

/-- The sextet stream of base64 encoding, chunked as btoa produces it;
proof-side description of btoa without the padding characters. -/
def sextets : List Nat → List Nat
  | [] => []
  | [a] => [a / 4, a % 4 * 16]
  | [a, b] => [a / 4, a % 4 * 16 + b / 16, b % 16 * 4]
  | a :: b :: c :: rest =>
    a / 4 :: (a % 4 * 16 + b / 16) :: (b % 16 * 4 + c / 64) :: c % 64 :: sextets rest

theorem b64_char_val : ∀ n, n < 64 →
    b64ValOf (urlReplBack (urlRepl (b64CharOf n))) = some n := by
  decide

theorem b64_char_props : ∀ n, n < 64 →
    isAsciiWs (urlReplBack (urlRepl (b64CharOf n))) = false ∧
    urlRepl (b64CharOf n) ≠ '=' ∧ urlRepl (b64CharOf n) ≠ '.' ∧
    isAsciiWs (urlRepl (b64CharOf n)) = false ∧
    urlReplBack (urlRepl (b64CharOf n)) ≠ '=' := by
  decide

theorem btoa_eq_sextets (bs : List Nat) :
    btoa bs = (sextets bs).map b64CharOf ++
      List.replicate ((3 - bs.length % 3) % 3) '=' := by
  induction bs using sextets.induct with
  | case1 => simp [btoa, sextets]
  | case2 a => simp [btoa, sextets, List.replicate]
  | case3 a b => simp [btoa, sextets, List.replicate]
  | case4 a b c rest ih =>
    simp only [btoa, sextets, List.map_cons, List.cons_append, List.length_cons]
    rw [ih]
    have : (rest.length + 1 + 1 + 1) % 3 = rest.length % 3 := by omega
    rw [this]

theorem sextets_lt (bs : List Nat) (h : ∀ b ∈ bs, b < 256) :
    ∀ v ∈ sextets bs, v < 64 := by
  induction bs using sextets.induct with
  | case1 => simp [sextets]
  | case2 a =>
    intro v hv
    simp [sextets] at hv
    have := h a (by simp)
    rcases hv with hv | hv <;> omega
  | case3 a b =>
    intro v hv
    simp [sextets] at hv
    have := h a (by simp)
    have := h b (by simp)
    rcases hv with hv | hv | hv <;> omega
  | case4 a b c rest ih =>
    intro v hv
    simp only [sextets, List.mem_cons] at hv
    have := h a (by simp)
    have := h b (by simp)
    have := h c (by simp)
    rcases hv with hv | hv | hv | hv | hv
    · omega
    · omega
    · omega
    · omega
    · exact ih (fun x hx => h x (by simp [hx])) v hv

theorem sextets_length_mod (bs : List Nat) : (sextets bs).length % 4 ≠ 1 := by
  induction bs using sextets.induct with
  | case1 => simp [sextets]
  | case2 a => simp [sextets]
  | case3 a b => simp [sextets]
  | case4 a b c rest ih =>
    simp only [sextets, List.length_cons]
    omega

theorem b64DecodeQuads_sextets (bs : List Nat) (h : ∀ b ∈ bs, b < 256) :
    b64DecodeQuads (sextets bs) = bs := by
  induction bs using sextets.induct with
  | case1 => rfl
  | case2 a =>
    have := h a (by simp)
    simp only [sextets, b64DecodeQuads, List.cons.injEq, and_true]
    omega
  | case3 a b =>
    have := h a (by simp)
    have := h b (by simp)
    simp only [sextets, b64DecodeQuads, List.cons.injEq, and_true]
    refine ⟨by omega, by omega⟩
  | case4 a b c rest ih =>
    have := h a (by simp)
    have := h b (by simp)
    have := h c (by simp)
    simp only [sextets, b64DecodeQuads, List.cons.injEq]
    refine ⟨by omega, by omega, by omega, ih (fun x hx => h x (by simp [hx]))⟩

theorem mapM_map_of_inverse {α β : Type} (l : List α) (g : α → β) (f : β → Option α)
    (h : ∀ x ∈ l, f (g x) = some x) : (l.map g).mapM f = some l := by
  induction l with
  | nil => rfl
  | cons a rest ih =>
    rw [List.map_cons, List.mapM_cons, h a (by simp), ih (fun x hx => h x (by simp [hx]))]
    rfl

theorem base64UrlEncode_eq_sextets (bs : List Nat) (h : ∀ b ∈ bs, b < 256) :
    base64UrlEncode bs = (sextets bs).map (fun n => urlRepl (b64CharOf n)) := by
  rw [base64UrlEncode, btoa_eq_sextets, List.map_append, List.filter_append, List.map_map]
  have h1 : List.map urlRepl (List.replicate ((3 - bs.length % 3) % 3) '=') =
      List.replicate ((3 - bs.length % 3) % 3) '=' := by
    rw [List.map_replicate]
    rfl
  have h2 : List.filter (fun c => ! decide (c = '='))
      (List.replicate ((3 - bs.length % 3) % 3) '=') = [] := by
    induction ((3 - bs.length % 3) % 3) with
    | zero => rfl
    | succ n ih => simpa [List.replicate] using ih
  rw [h1, h2, List.append_nil]
  have h3 : List.filter (fun c => ! decide (c = '='))
      (List.map (urlRepl ∘ b64CharOf) (sextets bs)) =
      List.map (urlRepl ∘ b64CharOf) (sextets bs) := by
    rw [List.filter_eq_self]
    intro a ha
    rw [List.mem_map] at ha
    obtain ⟨n, hn, rfl⟩ := ha
    have hne := (b64_char_props n (sextets_lt bs h n hn)).2.1
    simpa using hne
  rw [h3]
  rfl

theorem stripTrailingEq_no_eq (l : List Char) (h : '=' ∉ l) : stripTrailingEq l = l := by
  unfold stripTrailingEq
  split
  · rename_i rest heq
    exfalso
    apply h
    rw [← List.mem_reverse, heq]
    simp
  · rename_i rest heq
    exfalso
    apply h
    rw [← List.mem_reverse, heq]
    simp
  · rfl

theorem stripTrailingEq_append_replicate (r : List Char) (k : Nat) (hk : k ≤ 2)
    (h : '=' ∉ r) : stripTrailingEq (r ++ List.replicate k '=') = r := by
  interval_cases k
  · simpa using stripTrailingEq_no_eq r h
  · unfold stripTrailingEq
    rw [List.reverse_append]
    simp only [List.replicate, List.reverse_cons, List.reverse_nil, List.nil_append,
      List.cons_append]
    split
    · rename_i rest heq
      rw [List.cons.injEq] at heq
      exfalso
      apply h
      rw [← List.mem_reverse, heq.2]
      simp
    · rename_i rest heq
      rw [List.cons.injEq] at heq
      rw [← heq.2, List.reverse_reverse]
    · rename_i hne1 hne2
      exact absurd rfl (hne2 r.reverse)
  · unfold stripTrailingEq
    rw [List.reverse_append]
    simp [List.replicate]

theorem atob_unpadded_roundtrip (bs : List Nat) (h : ∀ b ∈ bs, b < 256) :
    atob ((base64UrlEncode bs).map urlReplBack) = some bs := by
  rw [base64UrlEncode_eq_sextets bs h, List.map_map]
  have hmem : ∀ a ∈ (sextets bs).map (urlReplBack ∘ fun n => urlRepl (b64CharOf n)),
      ∃ n, n < 64 ∧ a = urlReplBack (urlRepl (b64CharOf n)) := by
    intro a ha
    rw [List.mem_map] at ha
    obtain ⟨n, hn, rfl⟩ := ha
    exact ⟨n, sextets_lt bs h n hn, rfl⟩
  set cs := (sextets bs).map (urlReplBack ∘ fun n => urlRepl (b64CharOf n)) with hcs
  have hfil : cs.filter (fun c => ! isAsciiWs c) = cs := by
    rw [List.filter_eq_self]
    intro a ha
    obtain ⟨n, hn, rfl⟩ := hmem a ha
    simp [(b64_char_props n hn).1]
  have hnoeq : '=' ∉ cs := by
    intro hmm
    obtain ⟨n, hn, heq⟩ := hmem '=' hmm
    exact (b64_char_props n hn).2.2.2.2 heq.symm
  have hlen : cs.length = (sextets bs).length := by rw [hcs, List.length_map]
  have hmod := sextets_length_mod bs
  have hmapm : cs.mapM b64ValOf = some (sextets bs) := by
    rw [hcs]
    exact mapM_map_of_inverse _ _ _ (fun n hn => b64_char_val n (sextets_lt bs h n hn))
  simp only [atob]
  rw [hfil]
  have ht2 : (if cs.length % 4 = 0 then stripTrailingEq cs else cs) = cs := by
    split
    · exact stripTrailingEq_no_eq cs hnoeq
    · rfl
  rw [ht2, if_neg (by omega), hmapm]
  exact congrArg some (b64DecodeQuads_sextets bs h)

theorem base64UrlDecode_roundtrip (bs : List Nat) (h : ∀ b ∈ bs, b < 256) :
    base64UrlDecode (base64UrlEncode bs) = some bs := by
  simp only [base64UrlDecode]
  rw [base64UrlEncode_eq_sextets bs h, List.map_map]
  have hmem : ∀ a ∈ (sextets bs).map (urlReplBack ∘ fun n => urlRepl (b64CharOf n)),
      ∃ n, n < 64 ∧ a = urlReplBack (urlRepl (b64CharOf n)) := by
    intro a ha
    rw [List.mem_map] at ha
    obtain ⟨n, hn, rfl⟩ := ha
    exact ⟨n, sextets_lt bs h n hn, rfl⟩
  set cs := (sextets bs).map (urlReplBack ∘ fun n => urlRepl (b64CharOf n)) with hcs
  have hnoeq : '=' ∉ cs := by
    intro hmm
    obtain ⟨n, hn, heq⟩ := hmem '=' hmm
    exact (b64_char_props n hn).2.2.2.2 heq.symm
  have hlen : cs.length = (sextets bs).length := by rw [hcs, List.length_map]
  have hmod := sextets_length_mod bs
  set k := (4 - cs.length % 4) % 4 with hk
  have hk2 : k ≤ 2 := by omega
  have hmapm : cs.mapM b64ValOf = some (sextets bs) := by
    rw [hcs]
    exact mapM_map_of_inverse _ _ _ (fun n hn => b64_char_val n (sextets_lt bs h n hn))
  simp only [atob]
  have hfil : (cs ++ List.replicate k '=').filter (fun c => ! isAsciiWs c) =
      cs ++ List.replicate k '=' := by
    rw [List.filter_eq_self]
    intro a ha
    rw [List.mem_append] at ha
    rcases ha with ha | ha
    · obtain ⟨n, hn, rfl⟩ := hmem a ha
      simp [(b64_char_props n hn).1]
    · rw [List.eq_of_mem_replicate ha]
      decide
  rw [hfil]
  have hlen2 : (cs ++ List.replicate k '=').length % 4 = 0 := by
    rw [List.length_append, List.length_replicate]
    omega
  rw [if_pos hlen2, stripTrailingEq_append_replicate cs k hk2 hnoeq,
    if_neg (by omega), hmapm]
  exact congrArg some (b64DecodeQuads_sextets bs h)

theorem char_toNat_lt (c : Char) : c.toNat < 1114112 := by
  have h := c.valid
  have h2 : c.toNat = c.val.toNat := rfl
  rcases h with h | h <;> omega

theorem utf8EncodeChar_ascii (c : Char) (h : c.toNat < 128) :
    utf8EncodeChar c = [c.toNat] := by
  simp [utf8EncodeChar, h]

theorem textEncode_ascii (s : List Char) (h : ∀ c ∈ s, c.toNat < 128) :
    textEncode s = s.map Char.toNat := by
  induction s with
  | nil => rfl
  | cons c rest ih =>
    have h1 : textEncode (c :: rest) = utf8EncodeChar c ++ textEncode rest := rfl
    rw [h1, utf8EncodeChar_ascii c (h c (by simp)), ih (fun x hx => h x (by simp [hx])),
      List.map_cons]
    rfl

theorem bytesToChars_map_toNat (s : List Char) : bytesToChars (s.map Char.toNat) = s := by
  rw [bytesToChars, List.map_map]
  have hcomp : (Char.ofNat ∘ Char.toNat) = id := funext (fun c => Char.ofNat_toNat c)
  rw [hcomp, List.map_id]

theorem utf8EncodeChar_lt (c : Char) : ∀ b ∈ utf8EncodeChar c, b < 256 := by
  intro b hb
  have hv := char_toNat_lt c
  rw [utf8EncodeChar] at hb
  split_ifs at hb with h1 h2 h3 <;> simp at hb <;> omega

theorem textEncode_lt (s : List Char) : ∀ b ∈ textEncode s, b < 256 := by
  induction s with
  | nil => simp [textEncode]
  | cons c rest ih =>
    intro b hb
    have h1 : textEncode (c :: rest) = utf8EncodeChar c ++ textEncode rest := rfl
    rw [h1, List.mem_append] at hb
    rcases hb with hb | hb
    · exact utf8EncodeChar_lt c b hb
    · exact ih b hb

theorem splitOnDot_no_dot (a : List Char) (h : '.' ∉ a) : splitOnDot a = [a] := by
  induction a with
  | nil => rfl
  | cons c rest ih =>
    have hc : ¬ c = '.' := fun hc => h (by simp [hc])
    rw [splitOnDot, if_neg hc, ih (fun hm => h (by simp [hm]))]

theorem splitOnDot_append (a rest : List Char) (h : '.' ∉ a) :
    splitOnDot (a ++ '.' :: rest) = a :: splitOnDot rest := by
  induction a with
  | nil => simp [splitOnDot]
  | cons c a2 ih =>
    have hc : ¬ c = '.' := fun hc => h (by simp [hc])
    rw [List.cons_append, splitOnDot, if_neg hc, ih (fun hm => h (by simp [hm]))]

theorem hexVal_hexDigit : ∀ n, n < 16 → hexVal (hexDigit n) = some n := by
  decide

theorem parseJStringBody_jsonEscape (s rest : List Char) :
    parseJStringBody (jsonEscape s ++ '"' :: rest) = some (s, rest) := by
  induction s with
  | nil => rfl
  | cons c s2 ih =>
    rw [show jsonEscape (c :: s2) = jsonEscapeChar c ++ jsonEscape s2 from rfl,
      List.append_assoc, jsonEscapeChar]
    split_ifs with h1 h2 h3 h4 h5 h6 h7 h8
    · subst h1
      simp [parseJStringBody, parseEscChar, ih]
    · subst h2
      simp [parseJStringBody, parseEscChar, ih]
    · have hc : Char.ofNat 8 = c := by rw [← h3, Char.ofNat_toNat]
      simp [parseJStringBody, parseEscChar, ih]
      exact hc
    · subst h4
      simp [parseJStringBody, parseEscChar, ih]
    · subst h5
      simp [parseJStringBody, parseEscChar, ih]
    · have hc : Char.ofNat 12 = c := by rw [← h6, Char.ofNat_toNat]
      simp [parseJStringBody, parseEscChar, ih]
      exact hc
    · subst h7
      simp [parseJStringBody, parseEscChar, ih]
    · have h0 : hexVal '0' = some 0 := by decide
      have hd1 : hexVal (hexDigit (c.toNat / 16)) = some (c.toNat / 16) :=
        hexVal_hexDigit _ (by omega)
      have hd2 : hexVal (hexDigit (c.toNat % 16)) = some (c.toNat % 16) :=
        hexVal_hexDigit _ (by omega)
      have harith : c.toNat / 16 * 16 + c.toNat % 16 = c.toNat := by omega
      simp [parseJStringBody, ih, h0, hd1, hd2, harith, Char.ofNat_toNat]
    · rw [List.singleton_append, parseJStringBody.eq_def]
      simp [h1, h2, h8, ih]

theorem parseMembersF_last (f : Nat) (k v : List Char) :
    parseMembersF (f + 1) (jsonQuote k ++ ':' :: jsonQuote v ++ [rbrace]) = some [(k, v)] := by
  have h1 : jsonQuote k ++ ':' :: jsonQuote v ++ [rbrace] =
      '"' :: (jsonEscape k ++ '"' ::
        (':' :: '"' :: (jsonEscape v ++ '"' :: [rbrace]))) := by
    simp [jsonQuote, List.append_assoc]
  rw [h1]
  have hk := parseJStringBody_jsonEscape k
    (':' :: '"' :: (jsonEscape v ++ '"' :: [rbrace]))
  have hv := parseJStringBody_jsonEscape v [rbrace]
  simp only [rbrace] at hk hv ⊢
  simp [parseMembersF, hk, hv]
  rfl

theorem parseMembersF_cons (f : Nat) (k v rest : List Char)
    (ms : List (List Char × List Char)) (h : parseMembersF f rest = some ms) :
    parseMembersF (f + 1) (jsonQuote k ++ ':' :: jsonQuote v ++ ',' :: rest) =
      some ((k, v) :: ms) := by
  have h1 : jsonQuote k ++ ':' :: jsonQuote v ++ ',' :: rest =
      '"' :: (jsonEscape k ++ '"' ::
        (':' :: '"' :: (jsonEscape v ++ '"' :: (',' :: rest)))) := by
    simp [jsonQuote, List.append_assoc]
  rw [h1]
  have hk := parseJStringBody_jsonEscape k
    (':' :: '"' :: (jsonEscape v ++ '"' :: (',' :: rest)))
  have hv := parseJStringBody_jsonEscape v (',' :: rest)
  simp [parseMembersF, hk, hv, h]

theorem parseJsonFlatObj_stringify (uid ct : List Char) :
    parseJsonFlatObj (jsonStringifyPayload uid ct) =
      some [("uid".data, uid), ("ct".data, ct)] := by
  have hbody : jsonStringifyPayload uid ct =
      lbrace :: (jsonQuote "uid".data ++ ':' :: jsonQuote uid ++
        ',' :: (jsonQuote "ct".data ++ ':' :: jsonQuote ct ++ [rbrace])) := by
    simp [jsonStringifyPayload, List.append_assoc]
  rw [hbody]
  set body := jsonQuote "uid".data ++ ':' :: jsonQuote uid ++
    ',' :: (jsonQuote "ct".data ++ ':' :: jsonQuote ct ++ [rbrace]) with hbd
  have hlen : 2 ≤ body.length := by
    rw [hbd]
    simp [jsonQuote, List.length_append]
    omega
  have hne2 : body ≠ [rbrace] := by
    intro hx
    have hl := congrArg List.length hx
    rw [List.length_singleton] at hl
    omega
  have hred : parseJsonFlatObj (lbrace :: body) =
      if body = [rbrace] then some [] else parseMembersF body.length body := by
    rw [parseJsonFlatObj]
    simp
  rw [hred, if_neg hne2, show body.length = body.length - 2 + 1 + 1 from by omega, hbd]
  exact parseMembersF_cons _ _ _ _ _ (parseMembersF_last _ _ _)

theorem jGet_pair_uid (uid ct : List Char) :
    jGet [("uid".data, uid), ("ct".data, ct)] "uid".data = some uid := by
  have h1 : ¬ (("ct".data : List Char) = "uid".data) := by decide
  simp [jGet, h1]

theorem jGet_pair_ct (uid ct : List Char) :
    jGet [("uid".data, uid), ("ct".data, ct)] "ct".data = some ct := by
  simp [jGet]

theorem hexDigit_ascii : ∀ n, n < 16 → (hexDigit n).toNat < 128 := by
  decide

theorem jsonEscapeChar_ascii (c : Char) (h : c.toNat < 128) :
    ∀ x ∈ jsonEscapeChar c, x.toNat < 128 := by
  intro x hx
  rw [jsonEscapeChar] at hx
  split_ifs at hx with h1 h2 h3 h4 h5 h6 h7 h8 <;> fin_cases hx <;>
    first
    | decide
    | exact h
    | exact hexDigit_ascii (c.toNat / 16) (by omega)
    | exact hexDigit_ascii (c.toNat % 16) (by omega)

theorem jsonEscape_ascii (s : List Char) (h : ∀ c ∈ s, c.toNat < 128) :
    ∀ x ∈ jsonEscape s, x.toNat < 128 := by
  induction s with
  | nil => simp [jsonEscape]
  | cons c rest ih =>
    intro x hx
    rw [show jsonEscape (c :: rest) = jsonEscapeChar c ++ jsonEscape rest from rfl,
      List.mem_append] at hx
    rcases hx with hx | hx
    · exact jsonEscapeChar_ascii c (h c (by simp)) x hx
    · exact ih (fun y hy => h y (by simp [hy])) x hx

theorem jsonQuote_ascii (s : List Char) (h : ∀ c ∈ s, c.toNat < 128) :
    ∀ x ∈ jsonQuote s, x.toNat < 128 := by
  rw [jsonQuote]
  refine List.forall_mem_cons.mpr ⟨by decide, ?_⟩
  refine List.forall_mem_append.mpr ⟨jsonEscape_ascii s h, ?_⟩
  simp

theorem jsonStringifyPayload_ascii (uid ct : List Char)
    (hu : ∀ c ∈ uid, c.toNat < 128) (hc : ∀ c ∈ ct, c.toNat < 128) :
    ∀ x ∈ jsonStringifyPayload uid ct, x.toNat < 128 := by
  intro x hx
  have hx2 : x = lbrace ∨ x ∈ jsonQuote "uid".data ∨ x = ':' ∨ x ∈ jsonQuote uid ∨
      x = ',' ∨ x ∈ jsonQuote "ct".data ∨ x ∈ jsonQuote ct ∨ x = rbrace := by
    rw [jsonStringifyPayload] at hx
    simp only [List.mem_cons, List.mem_append, List.mem_singleton] at hx
    tauto
  rcases hx2 with rfl | h | rfl | h | rfl | h | h | rfl
  · decide
  · exact jsonQuote_ascii _ (by decide) x h
  · decide
  · exact jsonQuote_ascii _ hu x h
  · decide
  · exact jsonQuote_ascii _ (by decide) x h
  · exact jsonQuote_ascii _ hc x h
  · decide

theorem dot_not_mem_base64UrlEncode (bs : List Nat) (h : ∀ b ∈ bs, b < 256) :
    '.' ∉ base64UrlEncode bs := by
  rw [base64UrlEncode_eq_sextets bs h]
  intro hm
  rw [List.mem_map] at hm
  obtain ⟨n, hn, heq⟩ := hm
  exact (b64_char_props n (sextets_lt bs h n hn)).2.2.1 heq

theorem verifyJWT_generateJWT_core (hmac : List Char → List Char → List Nat)
    (hh : ∀ d s b, b ∈ hmac d s → b < 256)
    (secret uid provider code : List Char)
    (hcode : clientCodeOf provider = code)
    (hrev : clientCodeReverse code ≠ none)
    (hca : ∀ c ∈ code, c.toNat < 128) (hcne : code ≠ [])
    (hne : uid ≠ []) (hascii : ∀ c ∈ uid, c.toNat < 128) :
    verifyJWT hmac (some secret) (generateJWT hmac secret uid provider) =
      some ⟨uid, code⟩ := by
  have hhb := textEncode_lt headerJson
  have hpb := textEncode_lt (jsonStringifyPayload uid code)
  set hE := base64UrlEncode (textEncode headerJson) with hhE
  set pE := base64UrlEncode (textEncode (jsonStringifyPayload uid code)) with hpE
  set sE := base64UrlEncode (hmac (hE ++ '.' :: pE) secret) with hsE
  have htok : generateJWT hmac secret uid provider = (hE ++ '.' :: pE) ++ '.' :: sE := by
    rw [generateJWT, hcode]
  have hsb : ∀ b ∈ hmac (hE ++ '.' :: pE) secret, b < 256 := fun b hb => hh _ _ b hb
  have hd1 : '.' ∉ hE := hhE ▸ dot_not_mem_base64UrlEncode _ hhb
  have hd2 : '.' ∉ pE := hpE ▸ dot_not_mem_base64UrlEncode _ hpb
  have hd3 : '.' ∉ sE := hsE ▸ dot_not_mem_base64UrlEncode _ hsb
  have hsplit : splitOnDot ((hE ++ '.' :: pE) ++ '.' :: sE) = [hE, pE, sE] := by
    rw [List.append_assoc, List.cons_append, splitOnDot_append hE _ hd1,
      splitOnDot_append pE _ hd2, splitOnDot_no_dot sE hd3]
  have hsig : base64UrlDecode sE = some (hmac (hE ++ '.' :: pE) secret) :=
    hsE ▸ base64UrlDecode_roundtrip _ hsb
  have hpay : atob (pE.map urlReplBack) = some (textEncode (jsonStringifyPayload uid code)) :=
    hpE ▸ atob_unpadded_roundtrip _ hpb
  have hchars : bytesToChars (textEncode (jsonStringifyPayload uid code)) =
      jsonStringifyPayload uid code := by
    rw [textEncode_ascii _ (jsonStringifyPayload_ascii uid code hascii hca),
      bytesToChars_map_toNat]
  have hparse := parseJsonFlatObj_stringify uid code
  have hu := jGet_pair_uid uid code
  have hct := jGet_pair_ct uid code
  cases hcr : clientCodeReverse code with
  | none => exact absurd hcr hrev
  | some prov =>
    rw [htok]
    simp only [verifyJWT]
    rw [hsplit]
    simp [hsig, hpay, hchars, hparse, hu, hct, hcr, hne, hcne]

/-- C2 (amended): for every deterministic byte-valued tag function, secret,
non-empty ASCII subject id and known provider, verifying a freshly issued
token succeeds and returns exactly that subject id together with the
provider's code, which the declared reverse map takes back to the provider.
(For non-ASCII subject ids the round trip is broken by the issue-side UTF-8
encoding against the verify-side Latin-1 decoding; see the
counterexample.) -/
theorem jwt_roundtrip_identity (hmac : List Char → List Char → List Nat)
    (hh : ∀ d s b, b ∈ hmac d s → b < 256)
    (secret uid provider : List Char)
    (hprov : provider ∈ ["anilist".data, "myanimelist".data, "simkl".data, "other".data])
    (hne : uid ≠ []) (hascii : ∀ c ∈ uid, c.toNat < 128) :
    verifyJWT hmac (some secret) (generateJWT hmac secret uid provider) =
      some ⟨uid, clientCodeOf provider⟩ ∧
    clientCodeReverse (clientCodeOf provider) = some provider := by
  fin_cases hprov <;>
    exact ⟨verifyJWT_generateJWT_core hmac hh secret uid _ _ rfl (by decide) (by decide)
      (by decide) hne hascii, by decide⟩

/-- Concrete deterministic tag function used to exercise the codec. -/
def hmacDemo : List Char → List Char → List Nat :=
  fun d s => [(d.length + s.length) % 256]

theorem jwt_roundtrip_identity_witness :
    verifyJWT hmacDemo (some "k1".data)
      (generateJWT hmacDemo "k1".data "u42".data "anilist".data) =
      some ⟨"u42".data, clientCodeOf "anilist".data⟩ ∧
    clientCodeReverse (clientCodeOf "anilist".data) = some "anilist".data :=
  jwt_roundtrip_identity hmacDemo
    (fun d s b hb => by
      simp [hmacDemo] at hb
      omega)
    "k1".data "u42".data "anilist".data (by decide) (by decide) (by decide)

/-- Concrete constant tag function (deterministic, byte-valued). -/
def hmacConst : List Char → List Char → List Nat := fun _ _ => [7]

/-- C2 counterexample: for the non-empty subject id given by the single
character U+00E9, the round trip does not return the subject id: the issue
side serialises the payload in UTF-8 while the verify side decodes the
base64 payload as Latin-1 characters, so verification succeeds but yields
the two-character mojibake string instead. -/
theorem jwt_roundtrip_nonascii_counterexample :
    verifyJWT hmacConst (some "k".data)
      (generateJWT hmacConst "k".data "é".data "anilist".data) =
      some ⟨"Ã©".data, "al".data⟩ ∧
    ("Ã©".data : List Char) ≠ "é".data := by
  decide

/-- C6 (amended): verification is a total function returning a definite
result, and every failure class resolves to none: a missing signing secret;
a token whose dot-split is not exactly three segments; a signature segment
that is not base64url-decodable; a payload segment that is not decodable;
a decoded payload that does not parse as JSON; a parsed payload with a
missing or falsy uid or ct; and a ct outside the known client-code set.
(The header segment is only signed over, never decoded, so an undecodable
header is not by itself rejected; see the counterexample.) -/
theorem verifyJWT_failure_policy :
    (∀ hmac token, verifyJWT hmac none token = none) ∧
    (∀ hmac sec token, (splitOnDot token).length ≠ 3 →
      verifyJWT hmac (some sec) token = none) ∧
    (∀ hmac sec token h p s, splitOnDot token = [h, p, s] →
      base64UrlDecode s = none → verifyJWT hmac (some sec) token = none) ∧
    (∀ hmac sec token h p s, splitOnDot token = [h, p, s] →
      atob (p.map urlReplBack) = none → verifyJWT hmac (some sec) token = none) ∧
    (∀ hmac sec token h p s bytes, splitOnDot token = [h, p, s] →
      atob (p.map urlReplBack) = some bytes →
      parseJsonFlatObj (bytesToChars bytes) = none →
      verifyJWT hmac (some sec) token = none) ∧
    (∀ hmac sec token h p s bytes obj, splitOnDot token = [h, p, s] →
      atob (p.map urlReplBack) = some bytes →
      parseJsonFlatObj (bytesToChars bytes) = some obj →
      (jGet obj "uid".data = none ∨ jGet obj "uid".data = some [] ∨
        jGet obj "ct".data = none ∨ jGet obj "ct".data = some []) →
      verifyJWT hmac (some sec) token = none) ∧
    (∀ hmac sec token h p s bytes obj uid ct, splitOnDot token = [h, p, s] →
      atob (p.map urlReplBack) = some bytes →
      parseJsonFlatObj (bytesToChars bytes) = some obj →
      jGet obj "uid".data = some uid → jGet obj "ct".data = some ct →
      clientCodeReverse ct = none →
      verifyJWT hmac (some sec) token = none) := by
  refine ⟨?_, ?_, ?_, ?_, ?_, ?_, ?_⟩
  · intro hmac token
    rfl
  · intro hmac sec token hlen
    simp only [verifyJWT]
    rcases hsp : splitOnDot token with _ | ⟨a, _ | ⟨b, _ | ⟨c, _ | ⟨d, tl⟩⟩⟩⟩
    · simp
    · simp
    · simp
    · rw [hsp] at hlen
      simp at hlen
    · simp
  · intro hmac sec token h p s hsp hdec
    simp only [verifyJWT]
    rw [hsp]
    simp [hdec]
  · intro hmac sec token h p s hsp hdec
    simp only [verifyJWT]
    rw [hsp]
    cases hbd : base64UrlDecode s with
    | none => simp [hbd]
    | some sig =>
      by_cases hcmp : hmac (h ++ '.' :: p) sec = sig
      · simp [hbd, hcmp, hdec]
      · simp [hbd, hcmp]
  · intro hmac sec token h p s bytes hsp hdec hparse
    simp only [verifyJWT]
    rw [hsp]
    cases hbd : base64UrlDecode s with
    | none => simp [hbd]
    | some sig =>
      by_cases hcmp : hmac (h ++ '.' :: p) sec = sig
      · simp [hbd, hcmp, hdec, hparse]
      · simp [hbd, hcmp]
  · intro hmac sec token h p s bytes obj hsp hdec hparse h6
    simp only [verifyJWT]
    rw [hsp]
    cases hbd : base64UrlDecode s with
    | none => simp [hbd]
    | some sig =>
      by_cases hcmp : hmac (h ++ '.' :: p) sec = sig
      · rcases h6 with h6 | h6 | h6 | h6 <;>
          [cases hct : jGet obj "ct".data;
           cases hct : jGet obj "ct".data;
           cases huid : jGet obj "uid".data;
           cases huid : jGet obj "uid".data] <;>
          simp [hbd, hcmp, hdec, hparse, h6] <;>
          simp_all
      · simp [hbd, hcmp]
  · intro hmac sec token h p s bytes obj uid ct hsp hdec hparse huid hct hrev
    simp only [verifyJWT]
    rw [hsp]
    cases hbd : base64UrlDecode s with
    | none => simp [hbd]
    | some sig =>
      by_cases hcmp : hmac (h ++ '.' :: p) sec = sig
      · by_cases hue : uid = []
        · simp [hbd, hcmp, hdec, hparse, huid, hct, hue]
        · by_cases hce : ct = []
          · simp [hbd, hcmp, hdec, hparse, huid, hct, hue, hce]
          · simp [hbd, hcmp, hdec, hparse, huid, hct, hue, hce, hrev]
      · simp [hbd, hcmp]

theorem verifyJWT_failure_policy_witness :
    verifyJWT hmacConst none "x.y.z".data = none ∧
    verifyJWT hmacConst (some "k".data) "ab".data = none ∧
    verifyJWT hmacConst (some "k".data) "a.b.!!!".data = none :=
  ⟨verifyJWT_failure_policy.1 hmacConst "x.y.z".data,
    verifyJWT_failure_policy.2.1 hmacConst "k".data "ab".data (by decide),
    verifyJWT_failure_policy.2.2.1 hmacConst "k".data "a.b.!!!".data
      "a".data "b".data "!!!".data (by decide) (by decide)⟩

/-- C6 counterexample: a token whose header segment is not base64url
decodable still verifies when the signature over header.payload matches,
because verification never decodes the header; so the claim read over every
segment fails for the header segment. -/
theorem verify_accepts_undecodable_header :
    base64UrlDecode "!!!".data = none ∧
    verifyJWT hmacConst (some "k".data)
      ("!!!".data ++ '.' ::
        base64UrlEncode (textEncode (jsonStringifyPayload "u".data "al".data)) ++
        '.' :: base64UrlEncode (hmacConst [] [])) =
      some ⟨"u".data, "al".data⟩ := by
  decide
